import Mathlib

/-!
# cwtch-vanity-go: the vanity key search of `main.go`

A shallow embedding of the prefix validation of `main`, of the worker loop
`findVanityAddress`, of the receive loop of `main` and of its interrupt
handler, with the properties of the search proved about them.

Conventions.
* A Go `string` is represented by the list of runes a `range` loop reads
  from it (`List Char`); its Go length `len` is its UTF-8 byte count.
* A Go `[]byte` is a `List Nat`; every use of an element reduces it to a
  byte with `% 256`.
* What a goroutine reads from outside (the random source, the state of a
  channel, the answers of the profile store) is an explicit input.
-/

namespace CwtchVanity

/-! ## Strings -/

/-- The constant `validBase32Chars` of `main` (line 149). -/
def validBase32Chars : List Char := "ABCDEFGHIJKLMNOPQRSTUVWXYZ234567".toList

/-- Go's `unicode.ToUpper`: ASCII letters are folded by arithmetic, every
other rune is looked up in the Unicode case tables, which are the argument
`upperTable`. -/
def unicodeToUpper (upperTable : Char → Char) (r : Char) : Char :=
  if r.toNat ≤ 127 then
    if 'a'.toNat ≤ r.toNat ∧ r.toNat ≤ 'z'.toNat then
      Char.ofNat (r.toNat - ('a'.toNat - 'A'.toNat))
    else r
  else upperTable r

/-- Go's `strings.ToUpper`, rune by rune. -/
def ToUpper (upperTable : Char → Char) (s : List Char) : List Char :=
  s.map (unicodeToUpper upperTable)

/-- Go's `strings.ContainsRune`. -/
def ContainsRune (s : List Char) (r : Char) : Bool :=
  s.contains r

/-- Go's `len` of a string: the number of bytes of its UTF-8 encoding. -/
def len : List Char → Nat
  | [] => 0
  | c :: cs => c.utf8Size + len cs

/-- A case table that folds nothing, for runs on ASCII input (where the
table is never consulted). -/
def noFolding : Char → Char := fun c => c

/-! ## Prefix validation (lines 143 to 156 of `main`) -/

/-- The two ways the validation of `main` ends the process. -/
inductive Abort where
  /-- The `os.Exit(1)` of line 145: no prefix given. -/
  | usage
  /-- The `log.Fatalf` of line 154, with the offending rune. -/
  | invalidChar (c : Char)
  deriving DecidableEq, Repr

/-- Lines 143 to 156 of `main`: the empty prefix exits, the first rune of the
uppercased prefix that is not in `validBase32Chars` is fatal, otherwise the
uppercased prefix goes on. -/
def mainValidation (upperTable : Char → Char) (vanityPrefix : List Char) :
    Except Abort (List Char) :=
  if vanityPrefix = [] then .error .usage
  else
    let upperPrefix := ToUpper upperTable vanityPrefix
    match upperPrefix.find? (fun c => !ContainsRune validBase32Chars c) with
    | some c => .error (.invalidChar c)
    | none => .ok upperPrefix

/-- How far `main` gets before its receive loop. -/
inductive Startup where
  /-- The validation ended the process. -/
  | aborted (why : Abort)
  /-- One of the `log.Fatalf` of the profile store set-up (lines 171, 177,
  182) ended the process. -/
  | setupFailed
  /-- The loop of lines 235 to 241 ran: `workers` goroutines were started,
  each on `findVanityAddress(upperPrefix, _, _, keepGoing, _)`. -/
  | spawned (upperPrefix : List Char) (keepGoing : Bool) (workers : Nat)
  deriving DecidableEq, Repr

/-- Lines 137 to 241 of `main`. `setupOk` says whether the temporary
directory and the encrypted store could be created; `cpus` is the `-cpus`
flag, and `for i := 0; i < numCPUs; i++` starts no worker when it is not
positive. -/
def mainSpawn (upperTable : Char → Char) (vanityPrefix : List Char)
    (keepGoing : Bool) (cpus : Int) (setupOk : Bool) : Startup :=
  match mainValidation upperTable vanityPrefix with
  | .error why => .aborted why
  | .ok upperPrefix =>
    if setupOk then .spawned upperPrefix keepGoing cpus.toNat
    else .setupFailed

/-! ## `base32.StdEncoding.EncodeToString` -/

/-- The alphabet of `base32.StdEncoding` (RFC 4648, table 3). -/
def encodeStd : List Char := "ABCDEFGHIJKLMNOPQRSTUVWXYZ234567".toList

/-- The padding character of `base32.StdEncoding`. -/
def padChar : Char := '='

/-- The lookup `enc.encode[v & 0x1F]` of the encoder. -/
def enc (v : Nat) : Char := encodeStd.getD (v % 32) 'A'

/-- The 32-bit word `uint32(b0)<<24 | uint32(b1)<<16 | uint32(b2)<<8 | uint32(b3)`. -/
def word (b0 b1 b2 b3 : Nat) : Nat :=
  (b0 % 256) * 2 ^ 24 + (b1 % 256) * 2 ^ 16 + (b2 % 256) * 2 ^ 8 + b3 % 256

/-- One full quantum of the encoder: five bytes give eight symbols. `hi` is
the word of the first four bytes and `lo` is `hi<<8 | b4` in 32 bits. -/
def quantum (b0 b1 b2 b3 b4 : Nat) : List Char :=
  let hi := word b0 b1 b2 b3
  let lo := (hi * 2 ^ 8 + b4 % 256) % 2 ^ 32
  [enc (hi / 2 ^ 27), enc (hi / 2 ^ 22), enc (hi / 2 ^ 17), enc (hi / 2 ^ 12),
   enc (hi / 2 ^ 7), enc (hi / 2 ^ 2), enc (lo / 2 ^ 5), enc lo]

/-- Go's `base32.StdEncoding.EncodeToString`: full quanta of five bytes,
then the final block of one to four bytes with its symbols and the padding
up to eight. -/
def EncodeToString : List Nat → List Char
  | b0 :: b1 :: b2 :: b3 :: b4 :: rest => quantum b0 b1 b2 b3 b4 ++ EncodeToString rest
  | [b0, b1, b2, b3] =>
    let val := word b0 b1 b2 b3
    [enc (val / 2 ^ 27), enc (val / 2 ^ 22), enc (val / 2 ^ 17), enc (val / 2 ^ 12),
     enc (val / 2 ^ 7), enc (val / 2 ^ 2), enc (val * 2 ^ 3), padChar]
  | [b0, b1, b2] =>
    let val := word b0 b1 b2 0
    [enc (val / 2 ^ 27), enc (val / 2 ^ 22), enc (val / 2 ^ 17), enc (val / 2 ^ 12),
     enc (val / 2 ^ 7), padChar, padChar, padChar]
  | [b0, b1] =>
    let val := word b0 b1 0 0
    [enc (val / 2 ^ 27), enc (val / 2 ^ 22), enc (val / 2 ^ 17), enc (val / 2 ^ 12),
     padChar, padChar, padChar, padChar]
  | [b0] =>
    let val := word b0 0 0 0
    [enc (val / 2 ^ 27), enc (val / 2 ^ 22),
     padChar, padChar, padChar, padChar, padChar, padChar]
  | [] => []

/-! ## The worker `findVanityAddress` (lines 284 to 308) -/

/-- What `ed25519.GenerateKey` returns when it succeeds. -/
structure KeyPair where
  publicKey : List Nat
  privateKey : List Nat
  deriving DecidableEq, Repr

/-- The slice expression `s[:n]` on a string of one-byte runes: a run-time
panic when `n` exceeds `len(s)`, the first `n` bytes otherwise. -/
def sliceTo (s : List Char) (n : Nat) : Option (List Char) :=
  if n ≤ len s then some (s.take n) else none

/-- Where a worker goroutine stands. -/
inductive Pc where
  /-- At the `select` of line 286. -/
  | top
  /-- At the send `resultChan <- privateKey` of line 300, with the key pair
  whose private key it is handing over. -/
  | sending (kp : KeyPair)
  /-- After a `return` (line 288 or 303). -/
  | returned
  /-- Stopped by the run-time panic of the slice expression of line 299. -/
  | panicked
  deriving DecidableEq, Repr

/-- What a worker reads from outside during one step. -/
structure Obs where
  /-- The channel `stop` is closed, so `case <-stop` is ready. -/
  stopClosed : Bool
  /-- The answer of `ed25519.GenerateKey(rand.Reader)`; `none` is `err != nil`. -/
  generated : Option KeyPair
  /-- The receive loop of `main` is taking from `resultChan`. -/
  receiver : Bool
  deriving DecidableEq, Repr

/-- What a step of a worker does that others can see. -/
inductive Event where
  /-- The call `ed25519.GenerateKey` returned this key pair. -/
  | keyGenerated (kp : KeyPair)
  /-- The send of line 300 handed this key pair's private key over. -/
  | keySent (kp : KeyPair)
  deriving DecidableEq, Repr

/-- The addition `atomic.AddUint64(attempts, 1)` on a `uint64`. -/
def AddUint64 (attempts delta : Nat) : Nat := (attempts + delta) % 2 ^ 64

/-- One step of `findVanityAddress`: from the top of the loop through the
comparison of line 299, or the send of line 300 and what follows it. The
result is the new place of the worker, the new value of `attempts` and the
events of the step; `none` when the worker cannot move (it has ended, or
its send finds no receiver: `resultChan` is unbuffered and the send is not
in a `select`). -/
def workerStep (prefix_ : List Char) (keepGoing : Bool) (obs : Obs) (pc : Pc)
    (attempts : Nat) : Option (Pc × Nat × List Event) :=
  match pc with
  | .top =>
    if obs.stopClosed then some (.returned, attempts, [])
    else
      match obs.generated with
      | none => some (.top, attempts, [])
      | some kp =>
        let serviceID := EncodeToString kp.publicKey
        let attempts := AddUint64 attempts 1
        match sliceTo serviceID (len prefix_) with
        | none => some (.panicked, attempts, [.keyGenerated kp])
        | some head =>
          if head = prefix_ then some (.sending kp, attempts, [.keyGenerated kp])
          else some (.top, attempts, [.keyGenerated kp])
  | .sending kp =>
    if obs.receiver then
      some (if keepGoing then .top else .returned, attempts, [.keySent kp])
    else none
  | .returned => none
  | .panicked => none

/-- The workers of one search with what they share: the counter `attempts`
and, as a record of the run, the events so far (oldest first). -/
structure Pool where
  attempts : Nat
  workers : List Pc
  trace : List Event
  deriving DecidableEq, Repr

/-- The state after the loop of lines 235 to 241: `numCPUs` workers at the
top of their loop, `attempts` at 0. -/
def Pool.start (numCPUs : Nat) : Pool :=
  { attempts := 0, workers := List.replicate numCPUs .top, trace := [] }

/-- Worker `i` takes a step on what it reads. Nothing moves once a worker
has panicked (the process is gone), and a worker that cannot move stays. -/
def poolStep (prefix_ : List Char) (keepGoing : Bool) (p : Pool) (move : Nat × Obs) : Pool :=
  if p.workers.contains .panicked then p
  else
    match p.workers[move.1]? with
    | none => p
    | some pc =>
      match workerStep prefix_ keepGoing move.2 pc p.attempts with
      | none => p
      | some (pc', attempts, events) =>
        { attempts := attempts, workers := p.workers.set move.1 pc',
          trace := p.trace ++ events }

/-- A run of the workers under a schedule: which worker moves and what it
reads, step after step. -/
def poolRun (prefix_ : List Char) (keepGoing : Bool) (p : Pool) (schedule : List (Nat × Obs)) :
    Pool :=
  schedule.foldl (poolStep prefix_ keepGoing) p

/-- The key pairs generated in a trace. -/
def generatedKeys (trace : List Event) : List KeyPair :=
  trace.filterMap fun e => match e with
    | .keyGenerated kp => some kp
    | .keySent _ => none

/-- The key pairs handed over on `resultChan` in a trace. -/
def sentKeys (trace : List Event) : List KeyPair :=
  trace.filterMap fun e => match e with
    | .keySent kp => some kp
    | .keyGenerated _ => none

/-! ## The stop channels and the interrupt handler (lines 221 to 231) -/

/-- The channels `stopWorkers` and `stopCounting` of `main`: `true` once
closed. -/
structure Signals where
  stopWorkers : Bool
  stopCounting : Bool
  deriving DecidableEq, Repr

/-- Go's `close` on a channel, by its closed flag: closing a closed channel
is a run-time panic (`none`). -/
def closeChan (closed : Bool) : Option Bool :=
  if closed then none else some true

/-- Where the goroutine of lines 224 to 231 stands. -/
inductive HandlerPc where
  /-- At the receive `<-signals` of line 225. -/
  | waiting
  /-- Before `close(stopWorkers)` (line 227). -/
  | closingWorkers
  /-- Before `close(stopCounting)` (line 228). -/
  | closingCounting
  /-- In `time.Sleep` (line 229). -/
  | sleeping
  /-- After `os.Exit(1)` (line 230). -/
  | exited
  /-- Stopped by closing a closed channel. -/
  | panicked
  deriving DecidableEq, Repr

/-- The interrupt handling of `main`: the number of notifications held by
the channel `signals` (made with room for one), the place of the handler
goroutine, the stop channels, and how often `close(stopWorkers)` (`closes`)
and `close(stopCounting)` (`closesCounting`) have run. -/
structure Shutdown where
  pending : Nat
  handler : HandlerPc
  signals : Signals
  closes : Nat
  closesCounting : Nat
  deriving DecidableEq, Repr

/-- The state after line 222: nothing pending, the handler waiting, both
channels open. -/
def Shutdown.start : Shutdown :=
  { pending := 0, handler := .waiting,
    signals := { stopWorkers := false, stopCounting := false }, closes := 0,
    closesCounting := 0 }

/-- What can happen to the interrupt handling: the operating system delivers
a SIGINT or SIGTERM, or the handler goroutine runs its next statement. -/
inductive Tick where
  | notify
  | run
  deriving DecidableEq, Repr

/-- One step of the interrupt handling. A notification is put in `signals`
when there is room and dropped otherwise (`signal.Notify` never blocks); the
handler receives once and then closes the two channels, sleeps and exits.
Nothing moves after the exit or a panic. -/
def shutdownStep (s : Shutdown) (t : Tick) : Shutdown :=
  match s.handler, t with
  | .exited, _ => s
  | .panicked, _ => s
  | _, .notify => if s.pending < 1 then { s with pending := s.pending + 1 } else s
  | .waiting, .run =>
    if s.pending = 0 then s
    else { s with pending := s.pending - 1, handler := .closingWorkers }
  | .closingWorkers, .run =>
    match closeChan s.signals.stopWorkers with
    | none => { s with handler := .panicked }
    | some c =>
      { s with signals := { s.signals with stopWorkers := c }, handler := .closingCounting,
               closes := s.closes + 1 }
  | .closingCounting, .run =>
    match closeChan s.signals.stopCounting with
    | none => { s with handler := .panicked }
    | some c =>
      { s with signals := { s.signals with stopCounting := c }, handler := .sleeping,
               closesCounting := s.closesCounting + 1 }
  | .sleeping, .run => { s with handler := .exited }

/-- The interrupt handling under a schedule of notifications and handler
steps. -/
def shutdownRun (s : Shutdown) (schedule : List Tick) : Shutdown :=
  schedule.foldl shutdownStep s

/-! ## The receive loop of `main` (lines 243 to 279) -/

/-- Go's `ed25519.PrivateKey.Public` on a 64-byte private key: its last 32
bytes. -/
def Public (privateKey : List Nat) : List Nat :=
  (privateKey.drop 32).take 32

/-- Which case of the `select` of line 244 is taken. A result comes with
the answers of the profile store to the three `StoreProfileKeyValue` calls
(`true`: no error). -/
inductive Selected where
  | result (privateKey : List Nat) (onionStored privateStored publicStored : Bool)
  | stop
  deriving DecidableEq, Repr

/-- What the receive loop does that can be seen from outside. -/
inductive Action where
  /-- The `fmt.Printf` of line 251. -/
  | printAddress (onionAddress : List Char)
  /-- The onion address was stored (line 254). -/
  | storeOnion (onionAddress : List Char)
  /-- The private key was stored (line 259). -/
  | storePrivateKey (privateKey : List Nat)
  /-- The public key was stored (line 263). -/
  | storePublicKey (publicKey : List Nat)
  /-- The call `Export(cwtchStore, exportFileName)` of line 270. -/
  | exportBundle (exportFileName : List Char)
  /-- The `fmt.Println` of line 276. -/
  | printStop
  deriving DecidableEq, Repr

/-- How the receive loop stands at the end of a run. -/
inductive Ending where
  /-- It executed a `return` (line 273 or 277). -/
  | returned
  /-- A `log.Fatalf` for a failed store ended the process. -/
  | fatal
  /-- It is still in its `select`. -/
  | receiving
  deriving DecidableEq, Repr

/-- Lines 246 to 270: the handling of one received private key. The result
is what was done and whether line 270 was reached (no store failed).
`GetTorV3Hostname` is the function of that name of the `tor` package. -/
def handleResult (GetTorV3Hostname : List Nat → List Char) (privateKey : List Nat)
    (onionStored privateStored publicStored : Bool) : List Action × Bool :=
  let publicKey := Public privateKey
  let onionAddress := GetTorV3Hostname publicKey
  if !onionStored then ([.printAddress onionAddress], false)
  else if !privateStored then ([.printAddress onionAddress, .storeOnion onionAddress], false)
  else if !publicStored then
    ([.printAddress onionAddress, .storeOnion onionAddress, .storePrivateKey privateKey], false)
  else
    ([.printAddress onionAddress, .storeOnion onionAddress, .storePrivateKey privateKey,
      .storePublicKey publicKey, .exportBundle (onionAddress ++ ".tar.gz".toList)], true)

/-- The receive loop at the end of a run: the stop channels as it leaves
them, what it did, and how it stands. -/
structure Coordinator where
  signals : Signals
  actions : List Action
  ending : Ending
  deriving DecidableEq, Repr

/-- Lines 243 to 279 of `main` on the cases its `select` takes, in order.
The loop has no statement that touches `stopWorkers` or `stopCounting`. -/
def mainLoop (GetTorV3Hostname : List Nat → List Char) (keepGoing : Bool) (signals : Signals) :
    List Selected → Coordinator
  | [] => { signals := signals, actions := [], ending := .receiving }
  | .stop :: _ => { signals := signals, actions := [.printStop], ending := .returned }
  | .result privateKey onionStored privateStored publicStored :: rest =>
    let handled := handleResult GetTorV3Hostname privateKey onionStored privateStored publicStored
    if !handled.2 then { signals := signals, actions := handled.1, ending := .fatal }
    else if !keepGoing then { signals := signals, actions := handled.1, ending := .returned }
    else
      let later := mainLoop GetTorV3Hostname keepGoing signals rest
      { later with actions := handled.1 ++ later.actions }

/-- The number of received keys whose handling a list of actions begins. -/
def handledKeys (actions : List Action) : Nat :=
  actions.countP fun a => match a with
    | .printAddress _ => true
    | _ => false

/-- The calls of `Export` in a list of actions. -/
def exportsMade (actions : List Action) : Nat :=
  actions.countP fun a => match a with
    | .exportBundle _ => true
    | _ => false

/-- The successful stores in a list of actions. -/
def storesMade (actions : List Action) : Nat :=
  actions.countP fun a => match a with
    | .storeOnion _ => true
    | .storePrivateKey _ => true
    | .storePublicKey _ => true
    | _ => false

/-! ## Inputs for runs on concrete data -/

/-- The key pair of test 1 of RFC 8032, as `ed25519.GenerateKey` returns it:
the private key is the 32-byte seed followed by the public key. Its
identifier starts with `25NJQAMC`. -/
def sampleKey : KeyPair :=
  { publicKey :=
      [0xd7, 0x5a, 0x98, 0x01, 0x82, 0xb1, 0x0a, 0xb7, 0xd5, 0x4b, 0xfe, 0xd3, 0xc9, 0x64, 0x07, 0x3a,
       0x0e, 0xe1, 0x72, 0xf3, 0xda, 0xa6, 0x23, 0x25, 0xaf, 0x02, 0x1a, 0x68, 0xf7, 0x07, 0x51, 0x1a],
    privateKey :=
      [0x9d, 0x61, 0xb1, 0x9d, 0xef, 0xfd, 0x5a, 0x60, 0xba, 0x84, 0x4a, 0xf4, 0x92, 0xec, 0x2c, 0xc4,
       0x44, 0x49, 0xc5, 0x69, 0x7b, 0x32, 0x69, 0x19, 0x70, 0x3b, 0xac, 0x03, 0x1c, 0xae, 0x7f, 0x60,
       0xd7, 0x5a, 0x98, 0x01, 0x82, 0xb1, 0x0a, 0xb7, 0xd5, 0x4b, 0xfe, 0xd3, 0xc9, 0x64, 0x07, 0x3a,
       0x0e, 0xe1, 0x72, 0xf3, 0xda, 0xa6, 0x23, 0x25, 0xaf, 0x02, 0x1a, 0x68, 0xf7, 0x07, 0x51, 0x1a] }

/-- A run of one worker: it generates `sampleKey`, then finds a receiver for
a send if it has one pending. -/
def sampleSchedule : List (Nat × Obs) :=
  [(0, { stopClosed := false, generated := some sampleKey, receiver := false }),
   (0, { stopClosed := false, generated := none, receiver := true })]

/-- A stand-in for `tor.GetTorV3Hostname` in runs on concrete data: the 52
symbols of the base32 encoding of the key. No statement below depends on
the choice. -/
def exampleHostname : List Nat → List Char :=
  fun publicKey => (EncodeToString publicKey).take 52

/-! ## Predicates used in the statements -/

/-- The comparison of line 299 holds for this key pair: the slice
`serviceID[:len(prefix)]` is in range and equal to the prefix. -/
def Matches (prefix_ : List Char) (kp : KeyPair) : Prop :=
  sliceTo (EncodeToString kp.publicKey) (len prefix_) = some prefix_

/-- What holds of the interrupt handling at every point of a run: at most
one notification is pending, the handler has not panicked, and the stop
channels and the counts of the two closes agree with the place of the
handler. -/
def ShutdownInv (s : Shutdown) : Prop :=
  s.pending ≤ 1 ∧
  match s.handler with
  | .waiting =>
    s.closes = 0 ∧ s.closesCounting = 0 ∧
      s.signals.stopWorkers = false ∧ s.signals.stopCounting = false
  | .closingWorkers =>
    s.closes = 0 ∧ s.closesCounting = 0 ∧
      s.signals.stopWorkers = false ∧ s.signals.stopCounting = false
  | .closingCounting =>
    s.closes = 1 ∧ s.closesCounting = 0 ∧
      s.signals.stopWorkers = true ∧ s.signals.stopCounting = false
  | .sleeping =>
    s.closes = 1 ∧ s.closesCounting = 1 ∧
      s.signals.stopWorkers = true ∧ s.signals.stopCounting = true
  | .exited =>
    s.closes = 1 ∧ s.closesCounting = 1 ∧
      s.signals.stopWorkers = true ∧ s.signals.stopCounting = true
  | .panicked => False

/-- The handler has a notification to act on, or has acted on one. -/
def Armed (s : Shutdown) : Prop :=
  s.handler ≠ .waiting ∨ 1 ≤ s.pending

/-- The number of handler steps after which `close(stopWorkers)` has run,
once a notification is pending. -/
def stepsToClose : HandlerPc → Nat
  | .waiting => 2
  | .closingWorkers => 1
  | _ => 0

/-- The number of handler steps after which both `close(stopWorkers)` and
`close(stopCounting)` have run, once a notification is pending. -/
def stepsToCloseBoth : HandlerPc → Nat
  | .waiting => 3
  | .closingWorkers => 2
  | .closingCounting => 1
  | _ => 0

/-! # Theorems -/

/-! ## Prefix validation -/


/-- An accepted prefix comes from a non-empty input, is its uppercased form and
holds alphabet symbols only. -/
theorem mem_ToUpper_of_ok {upperTable : Char → Char} {vanityPrefix p : List Char}
    (h : mainValidation upperTable vanityPrefix = .ok p) :
    vanityPrefix ≠ [] ∧ p = ToUpper upperTable vanityPrefix ∧ ∀ c ∈ p, c ∈ validBase32Chars := by
  unfold mainValidation at h
  split at h
  · cases h
  · rename_i hne
    simp only at h
    split at h
    · cases h
    · rename_i hnone
      injection h with h
      subst h
      refine ⟨hne, rfl, ?_⟩
      intro c hc
      have := List.find?_eq_none.mp hnone c hc
      simpa [ContainsRune] using this

/-- A non-empty input whose uppercased form holds alphabet symbols only is
accepted. -/
theorem ok_of_all_valid {upperTable : Char → Char} {vanityPrefix : List Char}
    (hne : vanityPrefix ≠ [])
    (hall : ∀ c ∈ ToUpper upperTable vanityPrefix, c ∈ validBase32Chars) :
    mainValidation upperTable vanityPrefix = .ok (ToUpper upperTable vanityPrefix) := by
  unfold mainValidation
  rw [if_neg hne]
  have hnone : (ToUpper upperTable vanityPrefix).find?
      (fun c => !ContainsRune validBase32Chars c) = none := by
    apply List.find?_eq_none.mpr
    intro c hc
    simpa [ContainsRune] using hall c hc
  simp only [hnone]

/-- An input whose uppercased form has a rune outside the alphabet is rejected. -/
theorem error_of_invalid {upperTable : Char → Char} {vanityPrefix : List Char}
    (h : ∃ c ∈ ToUpper upperTable vanityPrefix, c ∉ validBase32Chars) :
    ∃ why, mainValidation upperTable vanityPrefix = .error why := by
  cases hv : mainValidation upperTable vanityPrefix with
  | error why => exact ⟨why, rfl⟩
  | ok p =>
    obtain ⟨-, hp, hall⟩ := mem_ToUpper_of_ok hv
    obtain ⟨c, hc, hbad⟩ := h
    exact absurd (hall c (hp ▸ hc)) hbad

/-! ## The encoder -/

/-- Every symbol the encoder looks up is in the alphabet. -/
theorem enc_mem (v : Nat) : enc v ∈ validBase32Chars := by
  unfold enc
  have h : v % 32 < 32 := Nat.mod_lt _ (by norm_num)
  generalize v % 32 = i at h
  interval_cases i <;> decide

/-- The alphabet symbols are one byte each. -/
theorem utf8Size_of_valid : ∀ c ∈ validBase32Chars, c.utf8Size = 1 := by decide

/-- The padding character is not an alphabet symbol. -/
theorem padChar_not_valid : padChar ∉ validBase32Chars := by decide

/-- On one-byte runes the Go length is the number of runes. -/
theorem len_eq_length {s : List Char} (h : ∀ c ∈ s, c.utf8Size = 1) : len s = s.length := by
  induction s with
  | nil => rfl
  | cons c cs ih =>
    have hc : c.utf8Size = 1 := h c (List.mem_cons_self _ _)
    have hcs : len cs = cs.length := ih fun d hd => h d (List.mem_cons_of_mem _ hd)
    simp [len, hc, hcs, Nat.add_comm]

/-- The Go length of a string of alphabet symbols is its number of symbols. -/
theorem len_of_valid {s : List Char} (h : ∀ c ∈ s, c ∈ validBase32Chars) : len s = s.length :=
  len_eq_length fun c hc => utf8Size_of_valid c (h c hc)

/-- A full quantum is eight alphabet symbols. -/
theorem quantum_valid (b0 b1 b2 b3 b4 : Nat) :
    (quantum b0 b1 b2 b3 b4).length = 8 ∧ ∀ c ∈ quantum b0 b1 b2 b3 b4, c ∈ validBase32Chars := by
  refine ⟨rfl, ?_⟩
  intro c hc
  simp only [quantum, List.mem_cons, List.mem_singleton, List.not_mem_nil, or_false] at hc
  rcases hc with h | h | h | h | h | h | h | h <;> (rw [h]; exact enc_mem _)

/-- The encoding of `5 * n + 2` bytes is `8 * n + 4` alphabet symbols and four
padding characters. -/
theorem EncodeToString_two_left : ∀ (n : Nat) (src : List Nat), src.length = 5 * n + 2 →
    ∃ body, EncodeToString src = body ++ List.replicate 4 padChar ∧
      body.length = 8 * n + 4 ∧ ∀ c ∈ body, c ∈ validBase32Chars := by
  intro n
  induction n with
  | zero =>
    intro src h
    rcases src with _ | ⟨b0, _ | ⟨b1, _ | ⟨b2, rest⟩⟩⟩
    · simp only [List.length_cons, List.length_nil] at h; omega
    · simp only [List.length_cons, List.length_nil] at h; omega
    · refine ⟨[enc (word b0 b1 0 0 / 2 ^ 27), enc (word b0 b1 0 0 / 2 ^ 22),
        enc (word b0 b1 0 0 / 2 ^ 17), enc (word b0 b1 0 0 / 2 ^ 12)], rfl, rfl, ?_⟩
      intro c hc
      simp only [List.mem_cons, List.mem_singleton, List.not_mem_nil, or_false] at hc
      rcases hc with h | h | h | h <;> (rw [h]; exact enc_mem _)
    · simp only [List.length_cons, List.length_nil] at h; omega
  | succ n ih =>
    intro src h
    rcases src with _ | ⟨b0, _ | ⟨b1, _ | ⟨b2, _ | ⟨b3, _ | ⟨b4, rest⟩⟩⟩⟩⟩
    · simp only [List.length_cons, List.length_nil] at h; omega
    · simp only [List.length_cons, List.length_nil] at h; omega
    · simp only [List.length_cons, List.length_nil] at h; omega
    · simp only [List.length_cons, List.length_nil] at h; omega
    · simp only [List.length_cons, List.length_nil] at h; omega
    · have hrest : rest.length = 5 * n + 2 := by
        simp only [List.length_cons] at h
        omega
      obtain ⟨body, hbody, hlen, hvalid⟩ := ih rest hrest
      refine ⟨quantum b0 b1 b2 b3 b4 ++ body, ?_, ?_, ?_⟩
      · rw [EncodeToString, hbody, List.append_assoc]
      · rw [List.length_append, (quantum_valid b0 b1 b2 b3 b4).1, hlen]
        omega
      · intro c hc
        rcases List.mem_append.mp hc with h | h
        · exact (quantum_valid b0 b1 b2 b3 b4).2 c h
        · exact hvalid c h

/-- The identifier of a 32-byte key is 52 alphabet symbols and four padding
characters. -/
theorem serviceID_shape (publicKey : List Nat) (h : publicKey.length = 32) :
    ∃ body, EncodeToString publicKey = body ++ List.replicate 4 padChar ∧
      body.length = 52 ∧ ∀ c ∈ body, c ∈ validBase32Chars :=
  EncodeToString_two_left 6 publicKey h

/-- The identifier of a 32-byte key has Go length 56. -/
theorem serviceID_len (publicKey : List Nat) (h : publicKey.length = 32) :
    len (EncodeToString publicKey) = 56 := by
  obtain ⟨body, hs, hlen, hvalid⟩ := serviceID_shape publicKey h
  rw [hs, len_eq_length]
  · simp [hlen]
  · intro c hc
    rcases List.mem_append.mp hc with h | h
    · exact utf8Size_of_valid c (hvalid c h)
    · rw [List.eq_of_mem_replicate h]; decide

/-! ## Steps of the workers -/

/-- The steps a worker can take, case by case. -/
theorem workerStep_cases {prefix_ : List Char} {keepGoing : Bool} {obs : Obs} {pc pc' : Pc}
    {attempts attempts' : Nat} {events : List Event}
    (h : workerStep prefix_ keepGoing obs pc attempts = some (pc', attempts', events)) :
    (pc = .top ∧ obs.stopClosed = true ∧ pc' = .returned ∧ attempts' = attempts ∧ events = []) ∨
    (pc = .top ∧ obs.stopClosed = false ∧ obs.generated = none ∧ pc' = .top ∧
      attempts' = attempts ∧ events = []) ∨
    (∃ kp, pc = .top ∧ obs.stopClosed = false ∧ obs.generated = some kp ∧
      attempts' = AddUint64 attempts 1 ∧ events = [.keyGenerated kp] ∧
      ((sliceTo (EncodeToString kp.publicKey) (len prefix_) = none ∧ pc' = .panicked) ∨
       (sliceTo (EncodeToString kp.publicKey) (len prefix_) = some prefix_ ∧ pc' = .sending kp) ∨
       (∃ head, sliceTo (EncodeToString kp.publicKey) (len prefix_) = some head ∧
          head ≠ prefix_ ∧ pc' = .top))) ∨
    (∃ kp, pc = .sending kp ∧ obs.receiver = true ∧
      pc' = (if keepGoing then Pc.top else Pc.returned) ∧ attempts' = attempts ∧
      events = [.keySent kp]) := by
  cases pc with
  | top =>
    cases hstop : obs.stopClosed with
    | true =>
      simp [workerStep, hstop] at h
      obtain ⟨h1, h2, h3⟩ := h
      exact Or.inl ⟨rfl, rfl, h1.symm, h2.symm, h3⟩
    | false =>
      cases hgen : obs.generated with
      | none =>
        simp [workerStep, hstop, hgen] at h
        obtain ⟨h1, h2, h3⟩ := h
        exact Or.inr (Or.inl ⟨rfl, rfl, rfl, h1.symm, h2.symm, h3⟩)
      | some kp =>
        refine Or.inr (Or.inr (Or.inl ⟨kp, rfl, rfl, rfl, ?_⟩))
        cases hs : sliceTo (EncodeToString kp.publicKey) (len prefix_) with
        | none =>
          simp [workerStep, hstop, hgen, hs] at h
          obtain ⟨h1, h2, h3⟩ := h
          exact ⟨h2.symm, h3.symm, Or.inl ⟨rfl, h1.symm⟩⟩
        | some head =>
          by_cases hm : head = prefix_
          · simp [workerStep, hstop, hgen, hs, hm] at h
            obtain ⟨h1, h2, h3⟩ := h
            exact ⟨h2.symm, h3.symm, Or.inr (Or.inl ⟨by rw [hm], h1.symm⟩)⟩
          · simp [workerStep, hstop, hgen, hs, hm] at h
            obtain ⟨h1, h2, h3⟩ := h
            exact ⟨h2.symm, h3.symm, Or.inr (Or.inr ⟨head, rfl, hm, h1.symm⟩)⟩
  | sending kp =>
    cases hr : obs.receiver with
    | true =>
      simp [workerStep, hr] at h
      obtain ⟨h1, h2, h3⟩ := h
      exact Or.inr (Or.inr (Or.inr ⟨kp, rfl, rfl, h1.symm, h2.symm, h3.symm⟩))
    | false => simp [workerStep, hr] at h
  | returned => simp [workerStep] at h
  | panicked => simp [workerStep] at h

/-- A step of the pool changes nothing, or is a step of the worker that moves. -/
theorem poolStep_cases (prefix_ : List Char) (keepGoing : Bool) (p : Pool) (move : Nat × Obs) :
    poolStep prefix_ keepGoing p move = p ∨
    ∃ pc pc' attempts events, Pc.panicked ∉ p.workers ∧ p.workers[move.1]? = some pc ∧
      workerStep prefix_ keepGoing move.2 pc p.attempts = some (pc', attempts, events) ∧
      poolStep prefix_ keepGoing p move =
        { attempts := attempts, workers := p.workers.set move.1 pc', trace := p.trace ++ events } := by
  unfold poolStep
  by_cases hp : p.workers.contains Pc.panicked = true
  · left; rw [if_pos hp]
  · rw [if_neg hp]
    cases hget : p.workers[move.1]? with
    | none => left; rfl
    | some pc =>
      cases hstep : workerStep prefix_ keepGoing move.2 pc p.attempts with
      | none => left; simp only [hstep]
      | some r =>
        obtain ⟨pc', attempts, events⟩ := r
        right
        refine ⟨pc, pc', attempts, events, ?_, rfl, hstep, ?_⟩
        · simpa using hp
        · simp only [hstep]

/-- A run is the run of its first moves followed by its last. -/
theorem poolRun_snoc (prefix_ : List Char) (keepGoing : Bool) (p : Pool)
    (schedule : List (Nat × Obs)) (move : Nat × Obs) :
    poolRun prefix_ keepGoing p (schedule ++ [move]) =
      poolStep prefix_ keepGoing (poolRun prefix_ keepGoing p schedule) move := by
  simp [poolRun, List.foldl_append]

/-- A run along two schedules in a row. -/
theorem poolRun_append (prefix_ : List Char) (keepGoing : Bool) (p : Pool)
    (pre post : List (Nat × Obs)) :
    poolRun prefix_ keepGoing p (pre ++ post) =
      poolRun prefix_ keepGoing (poolRun prefix_ keepGoing p pre) post := by
  simp [poolRun, List.foldl_append]

/-- In every run, a worker at its send and every key handed over passed the
comparison of line 299. -/
theorem poolRun_matches (prefix_ : List Char) (keepGoing : Bool) (numCPUs : Nat)
    (schedule : List (Nat × Obs)) :
    (∀ kp, Pc.sending kp ∈ (poolRun prefix_ keepGoing (Pool.start numCPUs) schedule).workers →
      Matches prefix_ kp) ∧
    (∀ kp, Event.keySent kp ∈ (poolRun prefix_ keepGoing (Pool.start numCPUs) schedule).trace →
      Matches prefix_ kp) := by
  induction schedule using List.reverseRecOn with
  | nil =>
    constructor
    · intro kp h
      simp [poolRun, Pool.start] at h
    · intro kp h
      simp [poolRun, Pool.start] at h
  | append_singleton schedule move ih =>
    rw [poolRun_snoc]
    obtain ⟨ihw, iht⟩ := ih
    rcases poolStep_cases prefix_ keepGoing
        (poolRun prefix_ keepGoing (Pool.start numCPUs) schedule) move with h | h
    · rw [h]; exact ⟨ihw, iht⟩
    · obtain ⟨pc, pc', attempts, events, -, hget, hstep, heq⟩ := h
      rw [heq]
      have hpc : pc ∈ (poolRun prefix_ keepGoing (Pool.start numCPUs) schedule).workers :=
        List.getElem?_mem hget
      constructor
      · intro kp hkp
        rcases List.mem_or_eq_of_mem_set hkp with h | h
        · exact ihw kp h
        · rcases workerStep_cases hstep with c | c | c | c
          · rw [c.2.2.1] at h; cases h
          · rw [c.2.2.2.1] at h; cases h
          · obtain ⟨kp', -, -, -, -, -, c | c | c⟩ := c
            · rw [c.2] at h; cases h
            · rw [c.2] at h; cases h; exact c.1
            · obtain ⟨_, -, -, c⟩ := c
              rw [c] at h; cases h
          · obtain ⟨kp', -, -, c, -⟩ := c
            rw [c] at h
            cases keepGoing <;> cases h
      · intro kp hkp
        rcases List.mem_append.mp hkp with h | h
        · exact iht kp h
        · rcases workerStep_cases hstep with c | c | c | c
          · rw [c.2.2.2.2] at h; cases h
          · rw [c.2.2.2.2.2] at h; cases h
          · obtain ⟨kp', -, -, -, -, c, -⟩ := c
            rw [c] at h
            simp at h
          · obtain ⟨kp', c1, -, -, -, c⟩ := c
            rw [c] at h
            simp at h
            subst h
            exact ihw _ (c1 ▸ hpc)

/-- For a prefix of alphabet symbols, a key that passed the comparison has an
identifier whose first symbols are the prefix. -/
theorem take_of_matches {prefix_ : List Char} {kp : KeyPair}
    (hvalid : ∀ c ∈ prefix_, c ∈ validBase32Chars) (h : Matches prefix_ kp) :
    (EncodeToString kp.publicKey).take prefix_.length = prefix_ := by
  unfold Matches sliceTo at h
  rw [len_of_valid hvalid] at h
  split at h
  · exact Option.some.inj h
  · cases h

/-- C2: for every prefix of alphabet symbols and every run of any number of
workers, a key pair whose private key was sent on `resultChan` has an
identifier (the base32 encoding of its public key) whose first `len(prefix)`
characters are the prefix; so a key whose identifier does not start with the
prefix is never sent. -/
theorem sent_key_has_prefix (prefix_ : List Char) (keepGoing : Bool) (numCPUs : Nat)
    (schedule : List (Nat × Obs)) (kp : KeyPair)
    (hvalid : ∀ c ∈ prefix_, c ∈ validBase32Chars)
    (hsent : Event.keySent kp ∈
      (poolRun prefix_ keepGoing (Pool.start numCPUs) schedule).trace) :
    (EncodeToString kp.publicKey).take prefix_.length = prefix_ ∧
    prefix_ <+: EncodeToString kp.publicKey := by
  have htake := take_of_matches hvalid
    ((poolRun_matches prefix_ keepGoing numCPUs schedule).2 kp hsent)
  refine ⟨htake, ?_⟩
  have := List.take_prefix prefix_.length (EncodeToString kp.publicKey)
  rwa [htake] at this

/-- C2 on a run: with prefix `25`, one worker generates the key of RFC 8032,
test 1, whose identifier starts with `25NJQAMC`, and sends it. -/
theorem sent_key_has_prefix_witness :
    (∀ c ∈ "25".toList, c ∈ validBase32Chars) ∧
    Event.keySent sampleKey ∈ (poolRun "25".toList false (Pool.start 1) sampleSchedule).trace ∧
    (EncodeToString sampleKey.publicKey).take "25".toList.length = "25".toList ∧
    "25".toList <+: EncodeToString sampleKey.publicKey :=
  ⟨by decide, by decide,
   sent_key_has_prefix "25".toList false 1 sampleSchedule sampleKey (by decide) (by decide)⟩


/-- The keys generated in two traces in a row. -/
theorem generatedKeys_append (t u : List Event) :
    generatedKeys (t ++ u) = generatedKeys t ++ generatedKeys u := by
  simp [generatedKeys, List.filterMap_append]

/-- A step of the pool extends the trace, and moves the counter with the
keys it generates: by one (in 64 bits) with one key, not at all with none. -/
theorem poolStep_counts (prefix_ : List Char) (keepGoing : Bool) (p : Pool) (move : Nat × Obs) :
    ∃ events, (poolStep prefix_ keepGoing p move).trace = p.trace ++ events ∧
      ((generatedKeys events = [] ∧ (poolStep prefix_ keepGoing p move).attempts = p.attempts) ∨
       (∃ kp, generatedKeys events = [kp] ∧
          (poolStep prefix_ keepGoing p move).attempts = AddUint64 p.attempts 1)) := by
  rcases poolStep_cases prefix_ keepGoing p move with h | h
  · exact ⟨[], by rw [h, List.append_nil], Or.inl ⟨rfl, by rw [h]⟩⟩
  · obtain ⟨pc, pc', attempts, events, -, -, hstep, heq⟩ := h
    refine ⟨events, by rw [heq], ?_⟩
    rw [heq]
    rcases workerStep_cases hstep with c | c | c | c
    · exact Or.inl ⟨by rw [c.2.2.2.2]; rfl, c.2.2.2.1⟩
    · exact Or.inl ⟨by rw [c.2.2.2.2.2]; rfl, c.2.2.2.2.1⟩
    · obtain ⟨kp, -, -, -, ha, he, -⟩ := c
      exact Or.inr ⟨kp, by rw [he]; rfl, ha⟩
    · obtain ⟨kp, -, -, -, ha, he⟩ := c
      exact Or.inl ⟨by rw [he]; rfl, ha⟩

/-- A run extends the trace and adds to the counter, in 64 bits, the number of
keys it generates. -/
theorem poolRun_counts (prefix_ : List Char) (keepGoing : Bool) (schedule : List (Nat × Obs)) :
    ∀ p : Pool, p.attempts < 2 ^ 64 →
    ∃ events, (poolRun prefix_ keepGoing p schedule).trace = p.trace ++ events ∧
      (poolRun prefix_ keepGoing p schedule).attempts =
        (p.attempts + (generatedKeys events).length) % 2 ^ 64 := by
  induction schedule with
  | nil =>
    intro p hp
    exact ⟨[], by simp [poolRun], by simpa [poolRun, generatedKeys] using (Nat.mod_eq_of_lt hp).symm⟩
  | cons move schedule ih =>
    intro p hp
    have hrun : poolRun prefix_ keepGoing p (move :: schedule) =
        poolRun prefix_ keepGoing (poolStep prefix_ keepGoing p move) schedule := rfl
    obtain ⟨e1, ht1, hc1⟩ := poolStep_counts prefix_ keepGoing p move
    have hp1 : (poolStep prefix_ keepGoing p move).attempts < 2 ^ 64 := by
      rcases hc1 with ⟨-, h⟩ | ⟨_, -, h⟩
      · rw [h]; exact hp
      · rw [h]; exact Nat.mod_lt _ (by norm_num)
    obtain ⟨e2, ht2, hc2⟩ := ih _ hp1
    refine ⟨e1 ++ e2, ?_, ?_⟩
    · rw [hrun, ht2, ht1, List.append_assoc]
    · rw [hrun, hc2, generatedKeys_append, List.length_append]
      rcases hc1 with ⟨hg, h⟩ | ⟨kp, hg, h⟩
      · rw [h, hg]; simp
      · rw [h, hg]
        simp only [AddUint64, List.length_singleton]
        norm_num
        omega

/-- From the start, the counter is the number of keys generated so far, in 64
bits. -/
theorem poolRun_attempts (prefix_ : List Char) (keepGoing : Bool) (numCPUs : Nat)
    (schedule : List (Nat × Obs)) :
    (poolRun prefix_ keepGoing (Pool.start numCPUs) schedule).attempts =
      (generatedKeys (poolRun prefix_ keepGoing (Pool.start numCPUs) schedule).trace).length
        % 2 ^ 64 := by
  obtain ⟨events, ht, hc⟩ :=
    poolRun_counts prefix_ keepGoing schedule (Pool.start numCPUs) (by simp [Pool.start])
  rw [hc, ht]
  simp [Pool.start]

/-- C3: at every point of a run of any number of workers, as long as fewer than
`2 ^ 64` keys have been generated (the counter is a `uint64`), `attempts` is
exactly the number of key pairs generated so far, and it is no smaller later in
the run than earlier. A step that generates a key adds one to it, whether the
key matches or not (also when the comparison panics); a step that sees the stop
channel closed, or an error of the random source, leaves it as it is. -/
theorem attempts_counts_generated_keys (prefix_ : List Char) (keepGoing : Bool) (numCPUs : Nat)
    (pre post : List (Nat × Obs))
    (hroom : (generatedKeys
      (poolRun prefix_ keepGoing (Pool.start numCPUs) (pre ++ post)).trace).length < 2 ^ 64) :
    (poolRun prefix_ keepGoing (Pool.start numCPUs) pre).attempts =
      (generatedKeys (poolRun prefix_ keepGoing (Pool.start numCPUs) pre).trace).length ∧
    (poolRun prefix_ keepGoing (Pool.start numCPUs) (pre ++ post)).attempts =
      (generatedKeys (poolRun prefix_ keepGoing (Pool.start numCPUs) (pre ++ post)).trace).length ∧
    (poolRun prefix_ keepGoing (Pool.start numCPUs) pre).attempts ≤
      (poolRun prefix_ keepGoing (Pool.start numCPUs) (pre ++ post)).attempts ∧
    (∀ (kp : KeyPair) (receiver : Bool) (attempts : Nat), ∃ pc,
      workerStep prefix_ keepGoing
        { stopClosed := false, generated := some kp, receiver := receiver } .top attempts =
        some (pc, AddUint64 attempts 1, [.keyGenerated kp])) ∧
    (∀ (generated : Option KeyPair) (receiver : Bool) (attempts : Nat),
      workerStep prefix_ keepGoing
        { stopClosed := true, generated := generated, receiver := receiver } .top attempts =
        some (.returned, attempts, [])) ∧
    (∀ (receiver : Bool) (attempts : Nat),
      workerStep prefix_ keepGoing
        { stopClosed := false, generated := none, receiver := receiver } .top attempts =
        some (.top, attempts, [])) := by
  have hpre := poolRun_attempts prefix_ keepGoing numCPUs pre
  have hall := poolRun_attempts prefix_ keepGoing numCPUs (pre ++ post)
  obtain ⟨events, ht, -⟩ := poolRun_counts prefix_ keepGoing post
    (poolRun prefix_ keepGoing (Pool.start numCPUs) pre)
    (by rw [hpre]; exact Nat.mod_lt _ (by norm_num))
  rw [← poolRun_append] at ht
  have hle : (generatedKeys (poolRun prefix_ keepGoing (Pool.start numCPUs) pre).trace).length ≤
      (generatedKeys (poolRun prefix_ keepGoing (Pool.start numCPUs) (pre ++ post)).trace).length := by
    rw [ht, generatedKeys_append, List.length_append]
    exact Nat.le_add_right _ _
  rw [Nat.mod_eq_of_lt hroom] at hall
  rw [Nat.mod_eq_of_lt (Nat.lt_of_le_of_lt hle hroom)] at hpre
  refine ⟨hpre, hall, by rw [hpre, hall]; exact hle, ?_, ?_, ?_⟩
  · intro kp receiver attempts
    simp only [workerStep]
    cases hs : sliceTo (EncodeToString kp.publicKey) (len prefix_) with
    | none => exact ⟨_, rfl⟩
    | some head =>
      by_cases hm : head = prefix_
      · exact ⟨.sending kp, by simp [hm]⟩
      · exact ⟨.top, by simp [hm]⟩
  · intro generated receiver attempts
    rfl
  · intro receiver attempts
    rfl

/-- C3 on a run: after one worker has generated one key and sent it, the
counter is 1. -/
theorem attempts_counts_generated_keys_witness :
    (generatedKeys
      (poolRun "25".toList false (Pool.start 1) (sampleSchedule ++ [])).trace).length < 2 ^ 64 ∧
    (poolRun "25".toList false (Pool.start 1) sampleSchedule).attempts = 1 :=
  ⟨by decide,
   by
    have h := (attempts_counts_generated_keys "25".toList false 1 sampleSchedule [] (by decide)).1
    rw [h]
    decide⟩


/-- For a prefix of 53 to 56 alphabet symbols and a 32-byte key the slice is in
range and differs from the prefix: it holds a padding character. -/
theorem sliceTo_long {upperPrefix : List Char} {kp : KeyPair}
    (hvalid : ∀ c ∈ upperPrefix, c ∈ validBase32Chars)
    (hlong : 53 ≤ upperPrefix.length ∧ upperPrefix.length ≤ 56)
    (hkey : kp.publicKey.length = 32) :
    ∃ head, sliceTo (EncodeToString kp.publicKey) (len upperPrefix) = some head ∧
      head ≠ upperPrefix := by
  obtain ⟨body, hs, hlen, -⟩ := serviceID_shape kp.publicKey hkey
  refine ⟨(EncodeToString kp.publicKey).take upperPrefix.length, ?_, ?_⟩
  · unfold sliceTo
    rw [serviceID_len kp.publicKey hkey, len_of_valid hvalid, if_pos hlong.2]
  · intro heq
    have hpad : padChar ∈ upperPrefix := by
      rw [← heq, hs, List.take_append_eq_append_take, hlen]
      apply List.mem_append_right
      obtain ⟨k, hk⟩ : ∃ k, upperPrefix.length - 52 = k + 1 := ⟨upperPrefix.length - 53, by omega⟩
      rw [hk]
      simp [List.replicate, List.take]
    exact padChar_not_valid (hvalid _ hpad)

/-- For a prefix of more than 56 alphabet symbols and a 32-byte key the slice
expression panics. -/
theorem sliceTo_overlong {upperPrefix : List Char} {kp : KeyPair}
    (hvalid : ∀ c ∈ upperPrefix, c ∈ validBase32Chars)
    (hlong : 56 < upperPrefix.length) (hkey : kp.publicKey.length = 32) :
    sliceTo (EncodeToString kp.publicKey) (len upperPrefix) = none := by
  unfold sliceTo
  rw [serviceID_len kp.publicKey hkey, len_of_valid hvalid, if_neg (by omega)]

/-- With a prefix of 53 to 56 alphabet symbols no key is sent, every worker is
at the top of its loop or has returned, and a worker that has returned saw the
stop channel closed. -/
theorem poolRun_long (upperPrefix : List Char) (keepGoing : Bool) (numCPUs : Nat)
    (hvalid : ∀ c ∈ upperPrefix, c ∈ validBase32Chars)
    (hlong : 53 ≤ upperPrefix.length ∧ upperPrefix.length ≤ 56)
    (schedule : List (Nat × Obs))
    (hkeys : ∀ move ∈ schedule, ∀ kp, move.2.generated = some kp → kp.publicKey.length = 32) :
    (∀ kp, Event.keySent kp ∉
      (poolRun upperPrefix keepGoing (Pool.start numCPUs) schedule).trace) ∧
    (∀ pc ∈ (poolRun upperPrefix keepGoing (Pool.start numCPUs) schedule).workers,
      pc = .top ∨ pc = .returned) ∧
    (∀ i, (poolRun upperPrefix keepGoing (Pool.start numCPUs) schedule).workers[i]? =
        some .returned → ∃ move ∈ schedule, move.1 = i ∧ move.2.stopClosed = true) := by
  induction schedule using List.reverseRecOn with
  | nil =>
    refine ⟨?_, ?_, ?_⟩
    · intro kp h
      simp [poolRun, Pool.start] at h
    · intro pc h
      simp [poolRun, Pool.start] at h
      exact Or.inl h.2
    · intro i h
      have hmem := List.getElem?_mem h
      simp [poolRun, Pool.start] at hmem
  | append_singleton schedule move ih =>
    obtain ⟨iht, ihw, ihr⟩ := ih fun m hm => hkeys m (List.mem_append_left _ hm)
    have hmove := hkeys move (List.mem_append_right _ (List.mem_singleton_self _))
    have hold : ∀ i, (poolRun upperPrefix keepGoing (Pool.start numCPUs) schedule).workers[i]? =
        some Pc.returned → ∃ m ∈ schedule ++ [move], m.1 = i ∧ m.2.stopClosed = true := by
      intro i hi
      obtain ⟨m, hm, h⟩ := ihr i hi
      exact ⟨m, List.mem_append_left _ hm, h⟩
    rw [poolRun_snoc]
    rcases poolStep_cases upperPrefix keepGoing
        (poolRun upperPrefix keepGoing (Pool.start numCPUs) schedule) move with h | h
    · rw [h]; exact ⟨iht, ihw, hold⟩
    · obtain ⟨pc, pc', attempts, events, -, hget, hstep, heq⟩ := h
      rw [heq]
      have hpc := ihw pc (List.getElem?_mem hget)
      -- what the step can be: the worker was at the top and stays there or returns
      have hstep' : events.all (fun e => match e with | .keySent _ => false | _ => true) = true ∧
          ((pc' = .returned ∧ move.2.stopClosed = true) ∨ pc' = .top) := by
        rcases workerStep_cases hstep with c | c | c | c
        · exact ⟨by rw [c.2.2.2.2]; rfl, Or.inl ⟨c.2.2.1, c.2.1⟩⟩
        · exact ⟨by rw [c.2.2.2.2.2]; rfl, Or.inr c.2.2.2.1⟩
        · obtain ⟨kp, -, -, hgen, -, he, c⟩ := c
          refine ⟨by rw [he]; rfl, ?_⟩
          obtain ⟨head, hs, hne⟩ := sliceTo_long hvalid hlong (hmove kp hgen)
          rcases c with c | c | c
          · rw [hs] at c; cases c.1
          · rw [hs] at c; exact absurd (Option.some.inj c.1) hne
          · obtain ⟨_, -, -, c⟩ := c
            exact Or.inr c
        · obtain ⟨kp, c, -⟩ := c
          rw [c] at hpc
          rcases hpc with h | h <;> cases h
      refine ⟨?_, ?_, ?_⟩
      · intro kp hkp
        rcases List.mem_append.mp hkp with h | h
        · exact iht kp h
        · have := List.all_eq_true.mp hstep'.1 _ h
          simp at this
      · intro q hq
        rcases List.mem_or_eq_of_mem_set hq with h | h
        · exact ihw q h
        · rw [h]
          rcases hstep'.2 with c | c
          · exact Or.inr c.1
          · exact Or.inl c
      · intro i hi
        rw [List.getElem?_set] at hi
        by_cases hmi : move.1 = i
        · rw [if_pos hmi] at hi
          rcases hstep'.2 with c | c
          · exact ⟨move, List.mem_append_right _ (List.mem_singleton_self _), hmi, c.2⟩
          · rw [c] at hi
            split at hi <;> cases hi
        · rw [if_neg hmi] at hi
          exact hold i hi


/-- The keys of `sampleSchedule` have 32-byte public keys. -/
theorem sampleSchedule_keys :
    ∀ move ∈ sampleSchedule, ∀ kp, move.2.generated = some kp → kp.publicKey.length = 32 := by
  intro move hm kp hg
  simp only [sampleSchedule, List.mem_cons, List.mem_singleton, List.not_mem_nil, or_false] at hm
  rcases hm with rfl | rfl
  · cases hg; rfl
  · cases hg

/-- C10: the identifier of a 32-byte public key is 52 alphabet symbols followed
by four `=`; so for a prefix accepted by the validation of `main` and of length
53 to 56, and every 32-byte public key, the slice of line 299 is in range and
the comparison is false. In every run whose generated keys are 32 bytes long
no key is sent, no worker panics or waits at a send, and a worker that has
returned has seen the stop channel closed. -/
theorem long_prefix_never_matches (upperTable : Char → Char) (vanityPrefix upperPrefix : List Char)
    (keepGoing : Bool) (numCPUs : Nat) (schedule : List (Nat × Obs))
    (hok : mainValidation upperTable vanityPrefix = .ok upperPrefix)
    (hlong : 53 ≤ upperPrefix.length ∧ upperPrefix.length ≤ 56)
    (hkeys : ∀ move ∈ schedule, ∀ kp, move.2.generated = some kp → kp.publicKey.length = 32) :
    (∀ publicKey : List Nat, publicKey.length = 32 →
      ∃ body, EncodeToString publicKey = body ++ ['=', '=', '=', '='] ∧ body.length = 52 ∧
        ∀ c ∈ body, c ∈ validBase32Chars) ∧
    (∀ kp : KeyPair, kp.publicKey.length = 32 →
      ∃ head, sliceTo (EncodeToString kp.publicKey) (len upperPrefix) = some head ∧
        head ≠ upperPrefix) ∧
    (∀ kp, Event.keySent kp ∉
      (poolRun upperPrefix keepGoing (Pool.start numCPUs) schedule).trace) ∧
    (∀ pc ∈ (poolRun upperPrefix keepGoing (Pool.start numCPUs) schedule).workers,
      pc = .top ∨ pc = .returned) ∧
    (∀ i, (poolRun upperPrefix keepGoing (Pool.start numCPUs) schedule).workers[i]? =
        some .returned → ∃ move ∈ schedule, move.1 = i ∧ move.2.stopClosed = true) := by
  have hvalid := (mem_ToUpper_of_ok hok).2.2
  refine ⟨fun publicKey h => serviceID_shape publicKey h,
    fun kp h => sliceTo_long hvalid hlong h,
    poolRun_long upperPrefix keepGoing numCPUs hvalid hlong schedule hkeys⟩

/-- C10 on a run: the input of 53 `a` is accepted as 53 `A`; the worker that
generates the key of RFC 8032 stays at the top of its loop and sends nothing. -/
theorem long_prefix_never_matches_witness :
    mainValidation noFolding (List.replicate 53 'a') = .ok (List.replicate 53 'A') ∧
    (poolRun (List.replicate 53 'A') false (Pool.start 1) sampleSchedule).workers = [.top] ∧
    ∀ kp, Event.keySent kp ∉
      (poolRun (List.replicate 53 'A') false (Pool.start 1) sampleSchedule).trace :=
  ⟨rfl, by decide,
   (long_prefix_never_matches noFolding (List.replicate 53 'a') (List.replicate 53 'A') false 1
      sampleSchedule rfl (by decide) sampleSchedule_keys).2.2.1⟩

/-- C9: for a prefix accepted by the validation of `main` and longer than 56
characters, and every 32-byte public key, the slice `serviceID[:len(prefix)]` of
line 299 is out of range: the first key a worker generates makes it panic
(after the counter was incremented). -/
theorem overlong_prefix_panics (upperTable : Char → Char) (vanityPrefix upperPrefix : List Char)
    (keepGoing : Bool) (kp : KeyPair) (receiver : Bool) (attempts : Nat)
    (hok : mainValidation upperTable vanityPrefix = .ok upperPrefix)
    (hlong : 56 < upperPrefix.length) (hkey : kp.publicKey.length = 32) :
    sliceTo (EncodeToString kp.publicKey) (len upperPrefix) = none ∧
    workerStep upperPrefix keepGoing
      { stopClosed := false, generated := some kp, receiver := receiver } .top attempts =
      some (.panicked, AddUint64 attempts 1, [.keyGenerated kp]) := by
  have hs := sliceTo_overlong (mem_ToUpper_of_ok hok).2.2 hlong hkey
  refine ⟨hs, ?_⟩
  simp only [workerStep, hs]
  rfl

/-- C9 on a run: `main` starts its worker on the prefix of 57 `A`, and the
worker panics on the first key. -/
theorem overlong_prefix_panics_witness :
    mainSpawn noFolding (List.replicate 57 'A') false 1 true =
      .spawned (List.replicate 57 'A') false 1 ∧
    workerStep (List.replicate 57 'A') false
      { stopClosed := false, generated := some sampleKey, receiver := true } .top 0 =
      some (.panicked, 1, [.keyGenerated sampleKey]) :=
  ⟨rfl,
   (overlong_prefix_panics noFolding (List.replicate 57 'A') (List.replicate 57 'A') false
      sampleKey true 0 rfl (by decide) rfl).2⟩

/-- A worker at its send stays there as long as no step finds a receiver. -/
theorem sending_stays (prefix_ : List Char) (keepGoing : Bool) (kp : KeyPair) (i : Nat)
    (schedule : List (Nat × Obs)) (hrecv : ∀ move ∈ schedule, move.2.receiver = false) :
    ∀ p : Pool, p.workers[i]? = some (.sending kp) →
      (poolRun prefix_ keepGoing p schedule).workers[i]? = some (.sending kp) := by
  induction schedule with
  | nil => intro p hp; exact hp
  | cons move schedule ih =>
    intro p hp
    have hrun : poolRun prefix_ keepGoing p (move :: schedule) =
        poolRun prefix_ keepGoing (poolStep prefix_ keepGoing p move) schedule := rfl
    rw [hrun]
    apply ih (fun m hm => hrecv m (List.mem_cons_of_mem _ hm))
    rcases poolStep_cases prefix_ keepGoing p move with h | h
    · rw [h]; exact hp
    · obtain ⟨pc, pc', attempts, events, -, hget, hstep, heq⟩ := h
      rw [heq]
      by_cases hmi : move.1 = i
      · rw [hmi, hp] at hget
        cases hget
        have hr := hrecv move (List.mem_cons_self _ _)
        simp [workerStep, hr] at hstep
      · show (p.workers.set move.1 pc')[i]? = _
        rw [List.getElem?_set, if_neg hmi]
        exact hp

/-- C6 (as amended): a worker that has found a matching key and stands at the
send of line 300 has no step as long as there is no receiver, whether the stop
channel is closed or not; its only step is the hand-over to a receiver (after
which it returns, or goes on in keep-going mode). In every run without a
receiver it stays at the send. -/
theorem pending_send_waits_for_receiver (prefix_ : List Char) (keepGoing : Bool) (kp : KeyPair)
    (stopClosed : Bool) (generated : Option KeyPair) (attempts : Nat) :
    workerStep prefix_ keepGoing
      { stopClosed := stopClosed, generated := generated, receiver := false }
      (.sending kp) attempts = none ∧
    workerStep prefix_ keepGoing
      { stopClosed := stopClosed, generated := generated, receiver := true }
      (.sending kp) attempts =
      some (if keepGoing then .top else .returned, attempts, [.keySent kp]) ∧
    (∀ (p : Pool) (i : Nat) (schedule : List (Nat × Obs)),
      p.workers[i]? = some (.sending kp) → (∀ move ∈ schedule, move.2.receiver = false) →
      (poolRun prefix_ keepGoing p schedule).workers[i]? = some (.sending kp)) :=
  ⟨rfl, rfl, fun p i schedule hp hrecv => sending_stays prefix_ keepGoing kp i schedule hrecv p hp⟩

/-- C6, the statement fails as written: a worker that generated a key matching
the prefix `25` stands at its send; with the stop channel closed and no
receiver it has no step, so none to termination. -/
theorem pending_send_ignores_stop :
    poolRun "25".toList false (Pool.start 1)
      [(0, { stopClosed := false, generated := some sampleKey, receiver := false })] =
      { attempts := 1, workers := [.sending sampleKey], trace := [.keyGenerated sampleKey] } ∧
    workerStep "25".toList false { stopClosed := true, generated := none, receiver := false }
      (.sending sampleKey) 1 = none := by
  constructor
  · decide
  · rfl

/-! receive loop -/

/-- The receive loop leaves the stop channels as they are. -/
theorem mainLoop_signals (GetTorV3Hostname : List Nat → List Char) (keepGoing : Bool)
    (signals : Signals) (selected : List Selected) :
    (mainLoop GetTorV3Hostname keepGoing signals selected).signals = signals := by
  induction selected with
  | nil => rfl
  | cons first rest ih =>
    cases first with
    | stop => rfl
    | result privateKey a b c =>
      unfold mainLoop
      simp only
      split
      · rfl
      · split
        · rfl
        · exact ih

/-- With keep-going off the loop ends with the first result it receives. -/
theorem mainLoop_first (GetTorV3Hostname : List Nat → List Char) (signals : Signals)
    (privateKey : List Nat) (a b c : Bool) (rest : List Selected) :
    mainLoop GetTorV3Hostname false signals (.result privateKey a b c :: rest) =
      { signals := signals, actions := (handleResult GetTorV3Hostname privateKey a b c).1,
        ending := if (handleResult GetTorV3Hostname privateKey a b c).2 then .returned
          else .fatal } := by
  unfold mainLoop
  cases h : (handleResult GetTorV3Hostname privateKey a b c).2 <;> simp [h]

/-- The handling of one result prints once, exports at most once and stores at
most three times. -/
theorem handleResult_counts (GetTorV3Hostname : List Nat → List Char) (privateKey : List Nat)
    (a b c : Bool) :
    handledKeys (handleResult GetTorV3Hostname privateKey a b c).1 = 1 ∧
    exportsMade (handleResult GetTorV3Hostname privateKey a b c).1 ≤ 1 ∧
    storesMade (handleResult GetTorV3Hostname privateKey a b c).1 ≤ 3 := by
  cases a <;> cases b <;> cases c <;>
    simp [handleResult, handledKeys, exportsMade, storesMade]

/-! ## The interrupt handler -/

/-- A run of the interrupt handling along two schedules in a row. -/
theorem shutdownRun_append (s : Shutdown) (pre post : List Tick) :
    shutdownRun s (pre ++ post) = shutdownRun (shutdownRun s pre) post := by
  simp [shutdownRun, List.foldl_append]

/-- Every step keeps `ShutdownInv`. -/
theorem shutdownStep_inv (s : Shutdown) (t : Tick) (h : ShutdownInv s) :
    ShutdownInv (shutdownStep s t) := by
  obtain ⟨pending, handler, ⟨stopWorkers, stopCounting⟩, closes, closesCounting⟩ := s
  cases handler <;> cases t <;>
    simp_all [ShutdownInv, shutdownStep, closeChan] <;> split <;> simp_all

/-- Every run keeps `ShutdownInv`. -/
theorem shutdownRun_inv (schedule : List Tick) :
    ∀ s : Shutdown, ShutdownInv s → ShutdownInv (shutdownRun s schedule) := by
  induction schedule with
  | nil => intro s h; exact h
  | cons t schedule ih => intro s h; exact ih _ (shutdownStep_inv s t h)

/-- The start satisfies `ShutdownInv`. -/
theorem start_inv : ShutdownInv Shutdown.start := by
  simp [ShutdownInv, Shutdown.start]

/-- Under `ShutdownInv` each close has run at most once and the handler has
not panicked. -/
theorem inv_bounds {s : Shutdown} (h : ShutdownInv s) :
    s.closes ≤ 1 ∧ s.closesCounting ≤ 1 ∧ s.handler ≠ .panicked := by
  obtain ⟨pending, handler, ⟨stopWorkers, stopCounting⟩, closes, closesCounting⟩ := s
  cases handler <;> simp_all [ShutdownInv]

/-- Once `stopWorkers` is closed a step leaves it closed and runs no close of it. -/
theorem shutdownStep_stays_closed (s : Shutdown) (t : Tick) (h : ShutdownInv s)
    (hc : s.signals.stopWorkers = true) :
    (shutdownStep s t).signals.stopWorkers = true ∧ (shutdownStep s t).closes = s.closes := by
  obtain ⟨pending, handler, ⟨stopWorkers, stopCounting⟩, closes, closesCounting⟩ := s
  cases handler <;> cases t <;>
    simp_all [ShutdownInv, shutdownStep, closeChan] <;> split <;> simp_all

/-- Once `stopWorkers` is closed a run leaves it closed and runs no close of it. -/
theorem shutdownRun_stays_closed (schedule : List Tick) :
    ∀ s : Shutdown, ShutdownInv s → s.signals.stopWorkers = true →
      (shutdownRun s schedule).signals.stopWorkers = true ∧
      (shutdownRun s schedule).closes = s.closes := by
  induction schedule with
  | nil => intro s _ hc; exact ⟨hc, rfl⟩
  | cons t schedule ih =>
    intro s h hc
    obtain ⟨h1, h2⟩ := shutdownStep_stays_closed s t h hc
    obtain ⟨h3, h4⟩ := ih _ (shutdownStep_inv s t h) h1
    exact ⟨h3, h4.trans h2⟩

/-- Once `stopCounting` is closed a step leaves both channels closed and runs
no close. -/
theorem shutdownStep_stays_done (s : Shutdown) (t : Tick) (h : ShutdownInv s)
    (hc : s.signals.stopCounting = true) :
    (shutdownStep s t).signals.stopCounting = true ∧
    (shutdownStep s t).signals.stopWorkers = true ∧
    (shutdownStep s t).closesCounting = s.closesCounting ∧
    (shutdownStep s t).closes = s.closes := by
  obtain ⟨pending, handler, ⟨stopWorkers, stopCounting⟩, closes, closesCounting⟩ := s
  cases handler <;> cases t <;> simp_all [ShutdownInv, shutdownStep, closeChan]
  all_goals split
  all_goals simp_all

/-- Once `stopCounting` is closed a run leaves both channels closed and runs
no close. -/
theorem shutdownRun_stays_done (schedule : List Tick) :
    ∀ s : Shutdown, ShutdownInv s → s.signals.stopCounting = true →
      (shutdownRun s schedule).signals.stopCounting = true ∧
      (shutdownRun s schedule).signals.stopWorkers = true ∧
      (shutdownRun s schedule).closesCounting = s.closesCounting ∧
      (shutdownRun s schedule).closes = s.closes := by
  induction schedule with
  | nil =>
    intro s h hc
    obtain ⟨pending, handler, ⟨stopWorkers, stopCounting⟩, closes, closesCounting⟩ := s
    cases handler <;> simp_all [ShutdownInv, shutdownRun]
  | cons t schedule ih =>
    intro s h hc
    obtain ⟨h1, -, h3, h4⟩ := shutdownStep_stays_done s t h hc
    obtain ⟨k1, k2, k3, k4⟩ := ih _ (shutdownStep_inv s t h) h1
    exact ⟨k1, k2, k3.trans h3, k4.trans h4⟩

/-- After a notification the handler is armed. -/
theorem armed_of_notify (s : Shutdown) (h : ShutdownInv s) :
    Armed (shutdownStep s .notify) := by
  obtain ⟨pending, handler, ⟨stopWorkers, stopCounting⟩, closes, closesCounting⟩ := s
  cases handler <;> simp_all [ShutdownInv, shutdownStep, Armed]
  all_goals split
  all_goals simp_all
  all_goals omega

/-- An armed handler stays armed, and each of its steps brings the two closes
nearer. -/
theorem shutdownStep_progress (s : Shutdown) (t : Tick) (h : ShutdownInv s) (ha : Armed s) :
    Armed (shutdownStep s t) ∧
    stepsToClose (shutdownStep s t).handler ≤
      stepsToClose s.handler - (if t = .run then 1 else 0) ∧
    stepsToCloseBoth (shutdownStep s t).handler ≤
      stepsToCloseBoth s.handler - (if t = .run then 1 else 0) := by
  obtain ⟨pending, handler, ⟨stopWorkers, stopCounting⟩, closes, closesCounting⟩ := s
  cases handler <;> cases t <;>
    simp_all [ShutdownInv, shutdownStep, closeChan, Armed, stepsToClose, stepsToCloseBoth] <;>
    split <;> simp_all [stepsToClose, stepsToCloseBoth]

/-- A handler past line 227 has closed `stopWorkers` exactly once. -/
theorem closed_of_ready {s : Shutdown} (h : ShutdownInv s) (h0 : stepsToClose s.handler = 0) :
    s.closes = 1 ∧ s.signals.stopWorkers = true := by
  obtain ⟨pending, handler, ⟨stopWorkers, stopCounting⟩, closes, closesCounting⟩ := s
  cases handler <;> simp_all [ShutdownInv, stepsToClose]

/-- A handler past line 228 has closed each of the two channels exactly once. -/
theorem done_of_ready {s : Shutdown} (h : ShutdownInv s)
    (h0 : stepsToCloseBoth s.handler = 0) :
    s.closes = 1 ∧ s.closesCounting = 1 ∧
    s.signals.stopWorkers = true ∧ s.signals.stopCounting = true := by
  obtain ⟨pending, handler, ⟨stopWorkers, stopCounting⟩, closes, closesCounting⟩ := s
  cases handler <;> simp_all [ShutdownInv, stepsToCloseBoth]

/-- An armed handler that takes enough steps has closed `stopWorkers` exactly
once. -/
theorem shutdownRun_closes (post : List Tick) :
    ∀ s : Shutdown, ShutdownInv s → Armed s → stepsToClose s.handler ≤ post.count .run →
      (shutdownRun s post).closes = 1 ∧ (shutdownRun s post).signals.stopWorkers = true := by
  induction post with
  | nil =>
    intro s h _ hn
    exact closed_of_ready h (Nat.le_zero.mp hn)
  | cons t post ih =>
    intro s h ha hn
    obtain ⟨ha', hp, -⟩ := shutdownStep_progress s t h ha
    apply ih _ (shutdownStep_inv s t h) ha'
    cases t with
    | notify =>
      rw [List.count_cons_of_ne (by decide)] at hn
      rw [if_neg (by decide)] at hp
      omega
    | run =>
      rw [List.count_cons_self] at hn
      rw [if_pos rfl] at hp
      omega

/-- An armed handler that takes enough steps has closed each of the two
channels exactly once. -/
theorem shutdownRun_closes_both (post : List Tick) :
    ∀ s : Shutdown, ShutdownInv s → Armed s → stepsToCloseBoth s.handler ≤ post.count .run →
      (shutdownRun s post).closes = 1 ∧ (shutdownRun s post).closesCounting = 1 ∧
      (shutdownRun s post).signals.stopWorkers = true ∧
      (shutdownRun s post).signals.stopCounting = true := by
  induction post with
  | nil =>
    intro s h _ hn
    exact done_of_ready h (Nat.le_zero.mp hn)
  | cons t post ih =>
    intro s h ha hn
    obtain ⟨ha', -, hp⟩ := shutdownStep_progress s t h ha
    apply ih _ (shutdownStep_inv s t h) ha'
    cases t with
    | notify =>
      rw [List.count_cons_of_ne (by decide)] at hn
      rw [if_neg (by decide)] at hp
      omega
    | run =>
      rw [List.count_cons_self] at hn
      rw [if_pos rfl] at hp
      omega

/-- Handler steps without a notification change nothing. -/
theorem shutdownRun_idle (schedule : List Tick) (h : ∀ t ∈ schedule, t = Tick.run) :
    shutdownRun Shutdown.start schedule = Shutdown.start := by
  induction schedule with
  | nil => rfl
  | cons t schedule ih =>
    have ht : t = .run := h t (List.mem_cons_self _ _)
    subst ht
    exact ih fun u hu => h u (List.mem_cons_of_mem _ hu)

/-- C7: under every schedule of interrupt notifications and handler steps,
the cancellation transition of the handler, `close(stopWorkers)` followed by
`close(stopCounting)`, runs at most once: each of the two closes runs at most
once and the handler never panics (a second notification is left in the
channel or dropped, and no close of a closed channel is attempted). Once
`stopWorkers` is closed it stays closed and is not closed again, and once
`stopCounting` is closed both channels stay closed and neither is closed
again. After a notification, two handler steps have closed `stopWorkers`
exactly once and three handler steps have closed both channels exactly once
each. Without a notification nothing is closed. -/
theorem shutdown_closes_once (schedule : List Tick) :
    (shutdownRun Shutdown.start schedule).closes ≤ 1 ∧
    (shutdownRun Shutdown.start schedule).closesCounting ≤ 1 ∧
    (shutdownRun Shutdown.start schedule).handler ≠ .panicked ∧
    (∀ pre post, schedule = pre ++ post →
      (shutdownRun Shutdown.start pre).signals.stopWorkers = true →
      (shutdownRun Shutdown.start schedule).signals.stopWorkers = true ∧
      (shutdownRun Shutdown.start schedule).closes = (shutdownRun Shutdown.start pre).closes) ∧
    (∀ pre post, schedule = pre ++ post →
      (shutdownRun Shutdown.start pre).signals.stopCounting = true →
      (shutdownRun Shutdown.start schedule).signals.stopCounting = true ∧
      (shutdownRun Shutdown.start schedule).signals.stopWorkers = true ∧
      (shutdownRun Shutdown.start schedule).closesCounting =
        (shutdownRun Shutdown.start pre).closesCounting ∧
      (shutdownRun Shutdown.start schedule).closes = (shutdownRun Shutdown.start pre).closes) ∧
    (∀ pre post, schedule = pre ++ Tick.notify :: post → 2 ≤ post.count .run →
      (shutdownRun Shutdown.start schedule).closes = 1 ∧
      (shutdownRun Shutdown.start schedule).signals.stopWorkers = true) ∧
    (∀ pre post, schedule = pre ++ Tick.notify :: post → 3 ≤ post.count .run →
      (shutdownRun Shutdown.start schedule).closes = 1 ∧
      (shutdownRun Shutdown.start schedule).closesCounting = 1 ∧
      (shutdownRun Shutdown.start schedule).signals.stopWorkers = true ∧
      (shutdownRun Shutdown.start schedule).signals.stopCounting = true) ∧
    ((∀ t ∈ schedule, t = Tick.run) →
      (shutdownRun Shutdown.start schedule).closes = 0 ∧
      (shutdownRun Shutdown.start schedule).closesCounting = 0 ∧
      (shutdownRun Shutdown.start schedule).signals.stopWorkers = false ∧
      (shutdownRun Shutdown.start schedule).signals.stopCounting = false) := by
  have hinv := shutdownRun_inv schedule Shutdown.start start_inv
  have hnotify : ∀ pre post, schedule = pre ++ Tick.notify :: post →
      shutdownRun Shutdown.start schedule =
        shutdownRun (shutdownStep (shutdownRun Shutdown.start pre) .notify) post := by
    intro pre post hs
    rw [hs, shutdownRun_append]; rfl
  refine ⟨(inv_bounds hinv).1, (inv_bounds hinv).2.1, (inv_bounds hinv).2.2, ?_, ?_, ?_, ?_, ?_⟩
  · intro pre post hs hc
    rw [hs, shutdownRun_append]
    exact shutdownRun_stays_closed post _ (shutdownRun_inv pre _ start_inv) hc
  · intro pre post hs hc
    rw [hs, shutdownRun_append]
    exact shutdownRun_stays_done post _ (shutdownRun_inv pre _ start_inv) hc
  · intro pre post hs hn
    have hpre := shutdownRun_inv pre Shutdown.start start_inv
    rw [hnotify pre post hs]
    apply shutdownRun_closes post _ (shutdownStep_inv _ _ hpre) (armed_of_notify _ hpre)
    refine Nat.le_trans ?_ hn
    cases (shutdownStep (shutdownRun Shutdown.start pre) Tick.notify).handler <;>
      simp [stepsToClose]
  · intro pre post hs hn
    have hpre := shutdownRun_inv pre Shutdown.start start_inv
    rw [hnotify pre post hs]
    apply shutdownRun_closes_both post _ (shutdownStep_inv _ _ hpre) (armed_of_notify _ hpre)
    refine Nat.le_trans ?_ hn
    cases (shutdownStep (shutdownRun Shutdown.start pre) Tick.notify).handler <;>
      simp [stepsToCloseBoth]
  · intro h
    rw [shutdownRun_idle schedule h]
    exact ⟨rfl, rfl, rfl, rfl⟩

/-! ## The claims on the validation -/

/-- The letter `A` is its own upper case, whatever the table. -/
theorem unicodeToUpper_A (upperTable : Char → Char) : unicodeToUpper upperTable 'A' = 'A' := by
  simp [unicodeToUpper]

/-- A string of `A` is its own upper case. -/
theorem ToUpper_replicate_A (upperTable : Char → Char) (n : Nat) :
    ToUpper upperTable (List.replicate n 'A') = List.replicate n 'A' := by
  simp [ToUpper, List.map_replicate, unicodeToUpper_A]

/-- C1 (as amended): the validation of `main` succeeds exactly when the raw
prefix is not empty and every rune of its uppercased form is one of the 32
symbols of `validBase32Chars`; what it yields, and what the workers are
started on, is the uppercased prefix; when it fails `main` is aborted and
no worker is started, whatever the rest of the set-up does; and every input
whose uppercased form has a rune outside the alphabet is rejected. -/
theorem mainValidation_accepts_iff (upperTable : Char → Char) (vanityPrefix : List Char)
    (keepGoing : Bool) (cpus : Int) (setupOk : Bool) :
    ((∃ upperPrefix, mainValidation upperTable vanityPrefix = .ok upperPrefix) ↔
      (vanityPrefix ≠ [] ∧ ∀ c ∈ ToUpper upperTable vanityPrefix, c ∈ validBase32Chars)) ∧
    (∀ upperPrefix, mainValidation upperTable vanityPrefix = .ok upperPrefix →
      upperPrefix = ToUpper upperTable vanityPrefix ∧
      mainSpawn upperTable vanityPrefix keepGoing cpus true =
        .spawned (ToUpper upperTable vanityPrefix) keepGoing cpus.toNat) ∧
    (∀ why, mainValidation upperTable vanityPrefix = .error why →
      mainSpawn upperTable vanityPrefix keepGoing cpus setupOk = .aborted why) ∧
    (∀ upperPrefix k n,
      mainSpawn upperTable vanityPrefix keepGoing cpus setupOk = .spawned upperPrefix k n →
      mainValidation upperTable vanityPrefix = .ok upperPrefix ∧
      upperPrefix = ToUpper upperTable vanityPrefix) ∧
    ((∃ c ∈ ToUpper upperTable vanityPrefix, c ∉ validBase32Chars) →
      ∃ why, mainValidation upperTable vanityPrefix = .error why) := by
  refine ⟨⟨?_, ?_⟩, ?_, ?_, ?_, error_of_invalid⟩
  · rintro ⟨upperPrefix, h⟩
    obtain ⟨hne, hp, hall⟩ := mem_ToUpper_of_ok h
    exact ⟨hne, hp ▸ hall⟩
  · rintro ⟨hne, hall⟩
    exact ⟨_, ok_of_all_valid hne hall⟩
  · intro upperPrefix h
    obtain ⟨-, hp, -⟩ := mem_ToUpper_of_ok h
    refine ⟨hp, ?_⟩
    simp only [mainSpawn, h, hp, if_true]
  · intro why h
    simp only [mainSpawn, h]
  · intro upperPrefix k n h
    cases hv : mainValidation upperTable vanityPrefix with
    | error why => simp [mainSpawn, hv] at h
    | ok p =>
      cases setupOk with
      | false => simp [mainSpawn, hv] at h
      | true =>
        simp [mainSpawn, hv] at h
        rw [← h.1]
        exact ⟨rfl, (mem_ToUpper_of_ok hv).2.1⟩

/-- C1, the statement fails as written: the input `a` contains the rune `a`, which
is not one of the 32 symbols, and it passes the validation; the workers are
started on `A`. -/
theorem lowercase_input_accepted :
    (∃ c ∈ "a".toList, c ∉ validBase32Chars) ∧
    mainValidation noFolding "a".toList = .ok "A".toList ∧
    mainSpawn noFolding "a".toList false 1 true = .spawned "A".toList false 1 :=
  ⟨Exists.intro 'a' ⟨by decide, by decide⟩, rfl, rfl⟩

/-- C4 (as amended): the validation has no limit on the length: every raw
prefix that is not empty and whose uppercased form is made of alphabet
symbols is accepted, with its length unchanged; an accepted prefix is never
empty and holds alphabet symbols only; and prefixes of every positive
length are accepted. -/
theorem mainValidation_no_length_limit (upperTable : Char → Char) :
    (∀ vanityPrefix : List Char, vanityPrefix ≠ [] →
      (∀ c ∈ ToUpper upperTable vanityPrefix, c ∈ validBase32Chars) →
      mainValidation upperTable vanityPrefix = .ok (ToUpper upperTable vanityPrefix) ∧
      (ToUpper upperTable vanityPrefix).length = vanityPrefix.length) ∧
    (∀ vanityPrefix upperPrefix : List Char,
      mainValidation upperTable vanityPrefix = .ok upperPrefix →
      upperPrefix ≠ [] ∧ ∀ c ∈ upperPrefix, c ∈ validBase32Chars) ∧
    (∀ n : Nat, mainValidation upperTable (List.replicate (n + 1) 'A') =
      .ok (List.replicate (n + 1) 'A')) := by
  refine ⟨?_, ?_, ?_⟩
  · intro vanityPrefix hne hall
    exact ⟨ok_of_all_valid hne hall, by simp [ToUpper]⟩
  · intro vanityPrefix upperPrefix h
    obtain ⟨hne, hp, hall⟩ := mem_ToUpper_of_ok h
    refine ⟨?_, hall⟩
    intro hnil
    rw [hnil, ToUpper] at hp
    exact hne (List.map_eq_nil_iff.mp hp.symm)
  · intro n
    have h := @ok_of_all_valid upperTable (List.replicate (n + 1) 'A')
      (by simp [List.replicate])
      (by
        rw [ToUpper_replicate_A]
        intro c hc
        rw [List.eq_of_mem_replicate hc]
        decide)
    rwa [ToUpper_replicate_A] at h

/-- C4, the statement fails as written: a prefix of 57 symbols, longer than the
56 characters of the identifier of a 32-byte key, passes the validation and
the workers are started on it. -/
theorem overlong_prefix_accepted :
    (EncodeToString sampleKey.publicKey).length = 56 ∧
    (List.replicate 57 'A').length = 57 ∧
    mainValidation noFolding (List.replicate 57 'A') = .ok (List.replicate 57 'A') ∧
    mainSpawn noFolding (List.replicate 57 'A') false 4 true =
      .spawned (List.replicate 57 'A') false 4 :=
  ⟨by decide, rfl, rfl, rfl⟩

/-! ## The claims on the receive loop -/

/-- C5: with keep-going off, the receive loop handles at most one received
key under every sequence of cases its `select` takes (one print, at most
one export, at most three stores); when the first case is a result, what
the loop does is exactly the handling of that result, nothing of what is
offered after it, and it ends there (by `return`, or by `log.Fatalf` when a
store failed); and when the three stores succeed it prints, stores the
three values, exports once and returns. -/
theorem single_match_handled_once (GetTorV3Hostname : List Nat → List Char) (signals : Signals)
    (selected : List Selected) :
    handledKeys (mainLoop GetTorV3Hostname false signals selected).actions ≤ 1 ∧
    exportsMade (mainLoop GetTorV3Hostname false signals selected).actions ≤ 1 ∧
    storesMade (mainLoop GetTorV3Hostname false signals selected).actions ≤ 3 ∧
    (∀ privateKey a b c rest, selected = .result privateKey a b c :: rest →
      (mainLoop GetTorV3Hostname false signals selected).actions =
        (handleResult GetTorV3Hostname privateKey a b c).1 ∧
      handledKeys (mainLoop GetTorV3Hostname false signals selected).actions = 1 ∧
      (mainLoop GetTorV3Hostname false signals selected).ending =
        if (handleResult GetTorV3Hostname privateKey a b c).2 then .returned else .fatal) ∧
    (∀ privateKey rest, selected = .result privateKey true true true :: rest →
      mainLoop GetTorV3Hostname false signals selected =
        { signals := signals,
          actions :=
            [.printAddress (GetTorV3Hostname (Public privateKey)),
             .storeOnion (GetTorV3Hostname (Public privateKey)),
             .storePrivateKey privateKey,
             .storePublicKey (Public privateKey),
             .exportBundle (GetTorV3Hostname (Public privateKey) ++ ".tar.gz".toList)],
          ending := .returned }) := by
  have hfirst : ∀ privateKey a b c rest, selected = .result privateKey a b c :: rest →
      (mainLoop GetTorV3Hostname false signals selected).actions =
        (handleResult GetTorV3Hostname privateKey a b c).1 ∧
      handledKeys (mainLoop GetTorV3Hostname false signals selected).actions = 1 ∧
      (mainLoop GetTorV3Hostname false signals selected).ending =
        if (handleResult GetTorV3Hostname privateKey a b c).2 then .returned else .fatal := by
    intro privateKey a b c rest hs
    rw [hs, mainLoop_first]
    exact ⟨rfl, (handleResult_counts GetTorV3Hostname privateKey a b c).1, rfl⟩
  have hcount : handledKeys (mainLoop GetTorV3Hostname false signals selected).actions ≤ 1 ∧
      exportsMade (mainLoop GetTorV3Hostname false signals selected).actions ≤ 1 ∧
      storesMade (mainLoop GetTorV3Hostname false signals selected).actions ≤ 3 := by
    cases selected with
    | nil => simp [mainLoop, handledKeys, exportsMade, storesMade]
    | cons first rest =>
      cases first with
      | stop => simp [mainLoop, handledKeys, exportsMade, storesMade]
      | result privateKey a b c =>
        rw [mainLoop_first]
        have h := handleResult_counts GetTorV3Hostname privateKey a b c
        exact ⟨Nat.le_of_eq h.1, h.2.1, h.2.2⟩
  refine ⟨hcount.1, hcount.2.1, hcount.2.2, hfirst, ?_⟩
  intro privateKey rest hs
  rw [hs, mainLoop_first]
  rfl

/-- C8 (as amended): the receive loop leaves the stop channels as it found
them, in both modes and under every sequence of cases; with keep-going off
and a result whose stores succeed it handles the result and returns, and
`stopWorkers` and `stopCounting` are still as they were. -/
theorem mainLoop_leaves_signals (GetTorV3Hostname : List Nat → List Char) (keepGoing : Bool)
    (signals : Signals) (selected : List Selected) :
    (mainLoop GetTorV3Hostname keepGoing signals selected).signals = signals ∧
    (∀ privateKey rest,
      (mainLoop GetTorV3Hostname false signals
        (.result privateKey true true true :: rest)).ending = .returned ∧
      (mainLoop GetTorV3Hostname false signals
        (.result privateKey true true true :: rest)).signals = signals) :=
  ⟨mainLoop_signals GetTorV3Hostname keepGoing signals selected,
   fun privateKey rest => by rw [mainLoop_first]; exact ⟨rfl, rfl⟩⟩

/-- C8, the statement fails as written: with keep-going off, both stop channels
open and one result whose stores succeed, the loop handles the result
(five actions, the last the export) and returns with `stopWorkers` still
open. -/
theorem return_without_cancellation :
    (mainLoop exampleHostname false { stopWorkers := false, stopCounting := false }
      [.result sampleKey.privateKey true true true]).ending = .returned ∧
    (mainLoop exampleHostname false { stopWorkers := false, stopCounting := false }
      [.result sampleKey.privateKey true true true]).actions.length = 5 ∧
    (mainLoop exampleHostname false { stopWorkers := false, stopCounting := false }
      [.result sampleKey.privateKey true true true]).signals.stopWorkers = false :=
  ⟨rfl, rfl, rfl⟩

end CwtchVanity
